import Mathlib

/-!
Verification of the log-shipping replication engine in `sqlitedb.py`
(repository magicray/SQLiteDB), with the older standalone variant in
`coredb.py` embedded where the claims reference it.

Modelling conventions:
* Python values appearing in parameter maps are the inductive `Val`
  (int / float / text / bytes / None).  Floats carry an opaque payload
  (`FloatBits`): the engine never computes with floats, it only passes
  them through, and `json.dumps`/`json.loads` round-trips a Python float
  exactly (repr-based emission), so an opaque payload is faithful.
* Python dicts are association lists in insertion order (CPython dicts
  iterate in insertion order; keys are unique).
* `json.dumps(txns, indent=4, sort_keys=True)` followed by
  `json.loads` is modelled at the level of the JSON value tree (`JVal`):
  the text layer of the json library is a bijection on that tree (it
  preserves int-ness vs float-ness of numbers, string contents, nulls,
  array order, and emits object keys sorted
  while `loads` preserves document key order), so only the key sorting
  and the value conversions performed by `commit`/`sync` are modelled.
* Exceptions are `Except`/`RunResult` errors; Python object fields
  mutated before an exception propagates stay mutated, hence `RunResult`
  errors carry the post-exception state.
-/

namespace SQLiteDB

/-- Opaque payload of a Python float: `commit`/`sync` never compute with
floats and the json text layer round-trips them exactly. -/
abbrev FloatBits : Type := Int

/-- Runtime value of a statement parameter (Python: int / float / str /
bytes / None).  Bytes are lists of byte values. -/
inductive Val : Type where
  | vint (n : Int)
  | vfloat (x : FloatBits)
  | vtext (s : String)
  | vbytes (bs : List Nat)
  | vnull
deriving DecidableEq

/-- One node of the JSON value tree used as the wire form of a segment. -/
inductive JVal : Type where
  | jint (n : Int)
  | jfloat (x : FloatBits)
  | jstr (s : String)
  | jnull
deriving DecidableEq

/-- The error classes the embedded code can raise.
`fuelExhausted` is a modelling artifact of the bounded `sync` loop and is
unreachable at the fuel `sync` supplies. -/
inductive Err : Type where
  | typeMismatch (k : String)
  | ddlTypeMismatch
  | assertError
  | keyError
  | indexError
  | b64Error
  | attrError
  | noneTypeError
  | segmentExists
  | sqlSyntaxError
  | fuelExhausted
deriving DecidableEq

/-- The four kinds named by the first character of a column/parameter name. -/
inductive Kind : Type where
  | i | f | t | b
deriving DecidableEq

/-- Python `k[0]`: first character of a name, `none` models the
`IndexError` on an empty name. -/
def firstChar (k : String) : Option Char :=
  k.data.head?

/-- The keys of the `TYPES`/`PYTYPES` dictionaries: `none` models the
`KeyError` for a first character outside `i`, `f`, `t`, `b`. -/
def kindOfChar (c : Char) : Option Kind :=
  match c with
  | 'i' => some Kind.i
  | 'f' => some Kind.f
  | 't' => some Kind.t
  | 'b' => some Kind.b
  | _ => none

/-- Kind of a name: `k[0]` followed by the kind-table lookup. -/
def kindOfStr (k : String) : Option Kind :=
  (firstChar k).bind kindOfChar

/-- `type(v) is TYPES[k[0]]` — the strict type test in `CoreDB.commit`
and `CoreDB.sync` (`TYPES = dict(i=int, f=float, t=str, b=bytes)`). -/
def typeIs (kd : Kind) (v : Val) : Bool :=
  match kd, v with
  | Kind.i, Val.vint _ => true
  | Kind.f, Val.vfloat _ => true
  | Kind.t, Val.vtext _ => true
  | Kind.b, Val.vbytes _ => true
  | _, _ => false

/-- `type(v) in PYTYPES[k[0]]` — the lenient test in
`Database.validate_types` of `sqlitedb.py`
(`PYTYPES = dict(i=(int,), f=(int, float), t=(str,), b=(str, bytes))`). -/
def pyCompatible (kd : Kind) (v : Val) : Bool :=
  match kd, v with
  | Kind.i, Val.vint _ => true
  | Kind.f, Val.vint _ => true
  | Kind.f, Val.vfloat _ => true
  | Kind.t, Val.vtext _ => true
  | Kind.b, Val.vtext _ => true
  | Kind.b, Val.vbytes _ => true
  | _, _ => false

/-- `type(v) in PYTYPES[k[0]]` for the standalone `coredb.py` variant
(`PYTYPES = dict(i=(int,), f=(int, float), t=(str,), b=(str,))` — note
`b` accepts only text there). -/
def pyCompatibleCore (kd : Kind) (v : Val) : Bool :=
  match kd, v with
  | Kind.i, Val.vint _ => true
  | Kind.f, Val.vint _ => true
  | Kind.f, Val.vfloat _ => true
  | Kind.t, Val.vtext _ => true
  | Kind.b, Val.vtext _ => true
  | _, _ => false

/-- The standard base64 alphabet, as used by `base64.b64encode`. -/
def b64Alphabet : List Char :=
  "ABCDEFGHIJKLMNOPQRSTUVWXYZabcdefghijklmnopqrstuvwxyz0123456789+/".data

/-- Character for a six-bit group (the default is never reached for
values below 64). -/
def sext (n : Nat) : Char :=
  b64Alphabet.getD n 'A'

/-- Six-bit value of an alphabet character; `none` on a character
outside the alphabet. -/
def sextVal (c : Char) : Option Nat :=
  b64Alphabet.indexOf? c

/-- `base64.b64encode` on a byte list, producing the character list of
the padded base64 text. -/
def b64encodeAux : List Nat → List Char
  | [] => []
  | [a] => [sext (a / 4), sext (a % 4 * 16), '=', '=']
  | [a, b] => [sext (a / 4), sext (a % 4 * 16 + b / 16), sext (b % 16 * 4), '=']
  | a :: b :: c :: rest =>
      sext (a / 4) :: sext (a % 4 * 16 + b / 16) ::
      sext (b % 16 * 4 + c / 64) :: sext (c % 64) :: b64encodeAux rest

/-- `base64.b64decode` on the character list of a base64 text.  Exact on
the padded output of `b64encodeAux`; malformed input yields `none`
(Python raises `binascii.Error`; Python additionally ignores some junk
characters, a leniency nothing here depends on). -/
def b64decodeAux : List Char → Option (List Nat)
  | [] => some []
  | c1 :: c2 :: c3 :: c4 :: rest =>
      (sextVal c1).bind fun s1 =>
      (sextVal c2).bind fun s2 =>
      if c3 = '=' then
        if c4 = '=' ∧ rest = [] then some [s1 * 4 + s2 / 16] else none
      else
        (sextVal c3).bind fun s3 =>
        if c4 = '=' then
          if rest = [] then some [s1 * 4 + s2 / 16, s2 % 16 * 16 + s3 / 4] else none
        else
          (sextVal c4).bind fun s4 =>
          (b64decodeAux rest).bind fun tl =>
          some ((s1 * 4 + s2 / 16) :: (s2 % 16 * 16 + s3 / 4) :: (s3 % 4 * 64 + s4) :: tl)
  | _ => none

/-- `base64.b64encode(bs).decode()`. -/
def b64encode (bs : List Nat) : String :=
  String.mk (b64encodeAux bs)

/-- `base64.b64decode(s)`; `none` models `binascii.Error`. -/
def b64decode (s : String) : Option (List Nat) :=
  b64decodeAux s.data

/-- A buffered statement: `(sql, params)` as appended to `txns` by
`CoreDB.modify`. -/
structure Stmt : Type where
  sql : String
  params : List (String × Val)
deriving DecidableEq

/-- Wire form of one statement inside a segment object:
`[sql_text, params_object]` with JSON-representable values. -/
abbrev WireStmt : Type := String × List (String × JVal)

/-- Wire form of a whole segment object (`json.dumps`/`json.loads`
value tree of the top-level array). -/
abbrev Wire : Type := List WireStmt

/-- `json.dumps(..., sort_keys=True)`: params objects are emitted with
keys sorted (Python sorts `str` by code points, which is `String` order
here). -/
def sortKeys {α : Type} (l : List (String × α)) : List (String × α) :=
  List.insertionSort (fun p q => p.1 ≤ q.1) l

/-- The per-value work of the encode loop in `CoreDB.commit`:
`assert (type(v) is TYPES[k[0]])`, then base64 text for `b` values, and
the JSON number/string/null the json library would emit for the rest. -/
def encodeVal (k : String) (v : Val) : Except Err JVal :=
  match firstChar k with
  | none => Except.error Err.indexError
  | some c =>
    match kindOfChar c with
    | none => Except.error Err.keyError
    | some kd =>
      if typeIs kd v then
        match v with
        | Val.vint n => Except.ok (JVal.jint n)
        | Val.vfloat x => Except.ok (JVal.jfloat x)
        | Val.vtext s => Except.ok (JVal.jstr s)
        | Val.vbytes bs => Except.ok (JVal.jstr (b64encode bs))
        | Val.vnull => Except.error Err.assertError
      else Except.error Err.assertError

/-- The encode loop of `CoreDB.commit` over one params dict (first
failing entry raises). -/
def encodeParams : List (String × Val) → Except Err (List (String × JVal))
  | [] => Except.ok []
  | (k, v) :: rest =>
    match encodeVal k v with
    | Except.error e => Except.error e
    | Except.ok j =>
      match encodeParams rest with
      | Except.error e => Except.error e
      | Except.ok js => Except.ok ((k, j) :: js)

/-- The encode loop of `CoreDB.commit` over the whole `txns` list. -/
def encodeAll : List Stmt → Except Err (List WireStmt)
  | [] => Except.ok []
  | st :: rest =>
    match encodeParams st.params with
    | Except.error e => Except.error e
    | Except.ok js =>
      match encodeAll rest with
      | Except.error e => Except.error e
      | Except.ok ws => Except.ok ((st.sql, js) :: ws)

/-- Segment encoding performed inside `CoreDB.commit`: the assert/base64
loop over `txns` followed by `json.dumps(txns, indent=4,
sort_keys=True)` (the text layer is a bijection; only the key sorting is
observable at the value level). -/
def encodeSeg (txns : List Stmt) : Except Err Wire :=
  match encodeAll txns with
  | Except.error e => Except.error e
  | Except.ok l => Except.ok (l.map (fun p => (p.1, sortKeys p.2)))

/-- The per-value work of the decode loop in `CoreDB.sync`:
`base64.b64decode(v.encode())` for `b` keys, then
`assert (type(params[k]) is TYPES[k[0]])`. -/
def decodeVal (k : String) (j : JVal) : Except Err Val :=
  match firstChar k with
  | none => Except.error Err.indexError
  | some c =>
    if c = 'b' then
      match j with
      | JVal.jstr s =>
        match b64decode s with
        | some bs => Except.ok (Val.vbytes bs)
        | none => Except.error Err.b64Error
      | _ => Except.error Err.attrError
    else
      match kindOfChar c with
      | none => Except.error Err.keyError
      | some kd =>
        match kd, j with
        | Kind.i, JVal.jint n => Except.ok (Val.vint n)
        | Kind.f, JVal.jfloat x => Except.ok (Val.vfloat x)
        | Kind.t, JVal.jstr s => Except.ok (Val.vtext s)
        | _, _ => Except.error Err.assertError

/-- The decode loop of `CoreDB.sync` over one params object (document
key order is preserved by `json.loads`). -/
def decodeParams : List (String × JVal) → Except Err (List (String × Val))
  | [] => Except.ok []
  | (k, j) :: rest =>
    match decodeVal k j with
    | Except.error e => Except.error e
    | Except.ok v =>
      match decodeParams rest with
      | Except.error e => Except.error e
      | Except.ok vs => Except.ok ((k, v) :: vs)

/-- Segment decoding performed inside `CoreDB.sync`: `json.loads`
followed by the base64/assert loop over every statement (the loop runs
to completion before any statement is executed). -/
def decodeSeg : Wire → Except Err (List Stmt)
  | [] => Except.ok []
  | (sql, js) :: rest =>
    match decodeParams js with
    | Except.error e => Except.error e
    | Except.ok ps =>
      match decodeSeg rest with
      | Except.error e => Except.error e
      | Except.ok sts => Except.ok ({ sql := sql, params := ps } :: sts)

/-- One entry of `Database.validate_types` (`sqlitedb.py`): skip the
type check for `None`, check `type(v) in PYTYPES[k[0]]` otherwise, then
decode `b`-kind text values to bytes. -/
def validateEntry (k : String) (v : Val) : Except Err Val :=
  match firstChar k with
  | none => Except.error Err.indexError
  | some c =>
    if v = Val.vnull then Except.ok v
    else
      match kindOfChar c with
      | none => Except.error Err.keyError
      | some kd =>
        if pyCompatible kd v then
          match v with
          | Val.vtext s =>
            if c = 'b' then
              match b64decode s with
              | some bs => Except.ok (Val.vbytes bs)
              | none => Except.error Err.b64Error
            else Except.ok v
          | _ => Except.ok v
        else Except.error (Err.typeMismatch k)

namespace Database

/-- `Database.validate_types` (`sqlitedb.py` lines 150-164): builds the
validated params dict in insertion order; the first offending entry
raises. -/
def validate_types : List (String × Val) → Except Err (List (String × Val))
  | [] => Except.ok []
  | (k, v) :: rest =>
    match validateEntry k v with
    | Except.error e => Except.error e
    | Except.ok v' =>
      match validate_types rest with
      | Except.error e => Except.error e
      | Except.ok ps => Except.ok ((k, v') :: ps)

end Database

/-- Modelled from the spec: the embedded relational engine is an
external collaborator ("Explicitly out of scope... the embedded
relational engine itself (assumed: SQL-executing engine...)", spec §1).
Only the slice of its parser that the claims depend on is modelled: a
DML statement whose `where` clause is empty — the text ends in
`"where "` — or whose `set` list is empty — the text contains
`"set  where"` — is a syntax error and `cursor.execute` raises.  All
other statement texts are accepted. -/
def sqlParseOk (sql : String) : Bool :=
  !(decide (("where ".data) <:+ sql.data)) &&
  !(decide (("set  where".data) <:+: sql.data))

/-- The local SQLite connection: committed statement history, the open
transaction's executed-but-uncommitted statements, the committed `_kv`
`lsn` row, and an uncommitted update to that row.  User-visible engine
state is a deterministic function of the committed history (spec I2),
so the history stands for the state. -/
structure Engine : Type where
  applied : List Stmt
  pending : List Stmt
  kv : Nat
  kvPending : Option Nat
deriving DecidableEq

/-- `cursor.execute(sql, params)` on the connection: parse check, then
the statement joins the open transaction. -/
def engExec (e : Engine) (st : Stmt) : Except Err Engine :=
  if sqlParseOk st.sql then Except.ok { e with pending := e.pending ++ [st] }
  else Except.error Err.sqlSyntaxError

/-- `conn.execute("update _kv set value=? where key='lsn'", [n])`:
an uncommitted write of the `_kv` row (same open transaction). -/
def engSetKv (e : Engine) (n : Nat) : Engine :=
  { e with kvPending := some n }

/-- `conn.commit()`: the open transaction (statements and the `_kv`
write) becomes durable. -/
def engCommit (e : Engine) : Engine :=
  { applied := e.applied ++ e.pending
    pending := []
    kv := e.kvPending.getD e.kv
    kvPending := none }

/-- `conn.rollback()`: the open transaction is discarded. -/
def engRollback (e : Engine) : Engine :=
  { e with pending := [], kvPending := none }

/-- `select value from _kv where key='lsn'` on the same connection (a
connection reads its own uncommitted writes). -/
def readKv (e : Engine) : Nat :=
  e.kvPending.getD e.kv

/-- In-memory state of a `CoreDB` session plus the object store.  The
store maps the LSN in the key `SQLiteDB/{db}/logs/{n}` to the stored
segment; the fixed per-database prefix is implicit.  `lsn`/`txns` are
`none` when the Python attributes hold `None`. -/
structure DB : Type where
  lsn : Option Nat
  txns : Option (List Stmt)
  eng : Engine
  store : List (Nat × Wire)
deriving DecidableEq

/-- `S3Bucket.get`: the stored object for a key, or absent. -/
def lookupStore : List (Nat × Wire) → Nat → Option Wire
  | [], _ => none
  | p :: rest, k => if p.1 = k then some p.2 else lookupStore rest k

/-- `S3Bucket.put` with `IfNoneMatch='*'`: conditional create; an
existing key raises (HTTP 412, `SegmentExists`). -/
def s3put (store : List (Nat × Wire)) (k : Nat) (w : Wire) :
    Except Err (List (Nat × Wire)) :=
  if (lookupStore store k).isSome then Except.error Err.segmentExists
  else Except.ok ((k, w) :: store)

/-- Outcome of an operation: Python exceptions propagate to the caller
but the object's mutated fields persist, so errors carry the state. -/
inductive RunResult : Type where
  | ok (db : DB)
  | err (e : Err) (db : DB)
deriving DecidableEq

/-- State after an operation, whether or not it raised. -/
def stateOf : RunResult → DB
  | RunResult.ok db => db
  | RunResult.err _ db => db

/-- Whether an operation returned without raising. -/
def RunResult.isOk : RunResult → Bool
  | RunResult.ok _ => true
  | RunResult.err _ _ => false

namespace CoreDB

/-- `CoreDB.modify` (`sqlitedb.py` lines 89-96): execute on the local
connection, then append `(sql, params)` to `txns`.  If `txns` is `None`
(after a failed commit) the execute still happens and the append raises
`AttributeError`. -/
def modify (db : DB) (sql : String) (params : List (String × Val)) : RunResult :=
  match engExec db.eng { sql := sql, params := params } with
  | Except.error e => RunResult.err e db
  | Except.ok eng' =>
    match db.txns with
    | none => RunResult.err Err.attrError { db with eng := eng' }
    | some ts =>
        RunResult.ok { db with eng := eng', txns := some (ts ++ [{ sql := sql, params := params }]) }

/-- `CoreDB.commit` (`sqlitedb.py` lines 69-87).  `self.lsn` and
`self.txns` are swapped to `None` first; the encode loop runs (its
assert may raise); the conditional put runs (412 raises); only then the
`_kv` row is updated and the engine transaction committed, and
`self.lsn`/`self.txns` are restored to `lsn+1` / `[]`. -/
def commit (db : DB) : RunResult :=
  match db.txns with
  | none => RunResult.err Err.noneTypeError { db with lsn := none, txns := none }
  | some txns =>
    match encodeSeg txns with
    | Except.error e => RunResult.err e { db with lsn := none, txns := none }
    | Except.ok w =>
      match db.lsn with
      | none => RunResult.err Err.noneTypeError { db with lsn := none, txns := none }
      | some lsn =>
        match s3put db.store (lsn + 1) w with
        | Except.error e => RunResult.err e { db with lsn := none, txns := none }
        | Except.ok store' =>
            RunResult.ok
              { lsn := some (lsn + 1)
                txns := some []
                eng := engCommit (engSetKv db.eng (lsn + 1))
                store := store' }

/-- The execute loop of one `sync` iteration: on a raise, the earlier
statements stay in the open transaction. -/
def execAll : Engine → List Stmt → Engine × Option Err
  | e, [] => (e, none)
  | e, st :: rest =>
    match engExec e st with
    | Except.error er => (e, some er)
    | Except.ok e' => execAll e' rest

/-- Result of one iteration of the `while True` loop in `CoreDB.sync`:
the key was absent (`done`), one segment was applied and committed
(`stepped`), or an exception propagated (`failed`). -/
inductive SyncStepRes : Type where
  | done (db : DB)
  | stepped (db : DB)
  | failed (e : Err) (db : DB)

/-- One iteration of the `while True` loop in `CoreDB.sync`
(`sqlitedb.py` lines 102-127): get `logs/{lsn+1}`; if absent stop; else
decode (asserts may raise), execute every statement, write the `_kv`
row, commit, and advance `self.lsn`. -/
def syncStep (db : DB) : SyncStepRes :=
  match db.lsn with
  | none => SyncStepRes.failed Err.noneTypeError db
  | some n =>
    match lookupStore db.store (n + 1) with
    | none => SyncStepRes.done db
    | some w =>
      match decodeSeg w with
      | Except.error e => SyncStepRes.failed e db
      | Except.ok txns =>
        match execAll db.eng txns with
        | (e', some er) => SyncStepRes.failed er { db with eng := e' }
        | (e', none) =>
            SyncStepRes.stepped
              { db with lsn := some (n + 1), eng := engCommit (engSetKv e' (n + 1)) }

/-- The `while True` loop of `CoreDB.sync`, bounded by fuel.  Each
iteration that continues consumes a distinct store key above the current
LSN, so at the fuel `sync` supplies the `fuelExhausted` branch is
unreachable. -/
def syncLoop : Nat → DB → RunResult
  | 0, db => RunResult.err Err.fuelExhausted db
  | fuel + 1, db =>
    match syncStep db with
    | SyncStepRes.done d => RunResult.ok d
    | SyncStepRes.failed e d => RunResult.err e d
    | SyncStepRes.stepped d => syncLoop fuel d

/-- `CoreDB.sync` (`sqlitedb.py` lines 98-129): read the `_kv` row into
`self.lsn`, then tail the log until a key is absent. -/
def sync (db : DB) : RunResult :=
  syncLoop (db.store.length + 1) { db with lsn := some (readKv db.eng) }

end CoreDB

namespace Database

/-- `Database.rename_column` (`sqlitedb.py` lines 180-185): the kind
check raises before `modify` runs. -/
def rename_column (db : DB) (table src dst : String) : RunResult :=
  match firstChar src with
  | none => RunResult.err Err.indexError db
  | some cs =>
    match firstChar dst with
    | none => RunResult.err Err.indexError db
    | some cd =>
      if cs ≠ cd then RunResult.err Err.ddlTypeMismatch db
      else
        CoreDB.modify db
          ("alter table " ++ table ++ " rename column " ++ src ++ " to " ++ dst) []

/-- `Database.update` (`sqlitedb.py` lines 197-209): validate both
dicts, bind set values as `{col}_set` and where values as `{col}_where`
(suffix-disjoint, so the dict union is the list append), and render
`update {t} set {c=:c_set, ...} where {w=:w_where and ...}`. -/
def update (db : DB) (table : String) (setM whereM : List (String × Val)) : RunResult :=
  match validate_types setM with
  | Except.error e => RunResult.err e db
  | Except.ok sd =>
    match validate_types whereM with
    | Except.error e => RunResult.err e db
    | Except.ok wd =>
        CoreDB.modify db
          ("update " ++ table ++ " set "
            ++ String.intercalate ", " (sd.map (fun p => p.1 ++ "=:" ++ p.1 ++ "_set"))
            ++ " where "
            ++ String.intercalate " and " (wd.map (fun p => p.1 ++ "=:" ++ p.1 ++ "_where")))
          (sd.map (fun p => (p.1 ++ "_set", p.2)) ++ wd.map (fun p => (p.1 ++ "_where", p.2)))

/-- `Database.delete` (`sqlitedb.py` lines 211-215): validate the where
dict, bind where values under their own names, and render
`delete from {t} where {w=:w and ...}`. -/
def delete (db : DB) (table : String) (whereM : List (String × Val)) : RunResult :=
  match validate_types whereM with
  | Except.error e => RunResult.err e db
  | Except.ok wd =>
      CoreDB.modify db
        ("delete from " ++ table ++ " where "
          ++ String.intercalate " and " (wd.map (fun p => p.1 ++ "=:" ++ p.1)))
        wd

end Database

/-- A fresh node: empty local engine file (so `_kv` is created and
`('lsn','0')` inserted), empty pending list, `self.lsn` not yet set;
the object store may already hold segments. -/
def initDB (store0 : List (Nat × Wire)) : DB :=
  { lsn := none
    txns := some []
    eng := { applied := [], pending := [], kv := 0, kvPending := none }
    store := store0 }

/-- The events of a session's life used for the LSN trace: a buffered
statement, a commit, the `_kv` read at the top of `sync`, one iteration
of the `sync` loop, and a process restart (destructor rollback plus
re-open of the existing engine file, which preserves the `_kv` row). -/
inductive Op : Type where
  | modifyOp (sql : String) (params : List (String × Val))
  | commitOp
  | syncReadOp
  | syncIterOp
  | restartOp

/-- Apply one event to the session state (exceptions leave their
post-raise state, as in the Python object). -/
def applyOp (op : Op) (db : DB) : DB :=
  match op with
  | Op.modifyOp sql ps => stateOf (CoreDB.modify db sql ps)
  | Op.commitOp => stateOf (CoreDB.commit db)
  | Op.syncReadOp => { db with lsn := some (readKv db.eng) }
  | Op.syncIterOp =>
    match CoreDB.syncStep db with
    | CoreDB.SyncStepRes.done d => d
    | CoreDB.SyncStepRes.stepped d => d
    | CoreDB.SyncStepRes.failed _ d => d
  | Op.restartOp => { db with lsn := none, txns := some [], eng := engRollback db.eng }

/-- The successive values of the local `_kv` `lsn` row along a trace of
events from a fresh node. -/
def kvSeq (store0 : List (Nat × Wire)) (ops : List Op) : List Nat :=
  (List.scanl (fun d op => applyOp op d) (initDB store0) ops).map (fun d => d.eng.kv)

/-- Reachable-state invariant: no `_kv` write is pending between
operations, and the in-memory `lsn` is `None` or equal to the committed
`_kv` row. -/
def Inv (db : DB) : Prop :=
  db.eng.kvPending = none ∧ (db.lsn = none ∨ db.lsn = some db.eng.kv)

/-- A name whose first character is one of the four kind characters. -/
def validKeyB (k : String) : Bool :=
  (kindOfStr k).isSome

/-- Compatibility in the sense of the spec's type table (§4.1): null is
always accepted; otherwise the runtime kind must be in `PYTYPES[k[0]]`. -/
def compatibleB (k : String) (v : Val) : Bool :=
  match v with
  | Val.vnull => true
  | _ =>
    match kindOfStr k with
    | some kd => pyCompatible kd v
    | none => false

/-- A `b`-kind text value must be well-formed base64 (the spec's "base64
text", §4.1); any other entry is unconstrained. -/
def bTextOkB (k : String) (v : Val) : Bool :=
  match kindOfStr k, v with
  | some Kind.b, Val.vtext s => (b64decode s).isSome
  | _, _ => true

/-- Spec-side description of `validate`'s output entry (§4.1 "Output map
has the same keys; `b` values are always raw bytes"): `b`-kind text is
decoded, everything else passes through. -/
def validatedValue (k : String) (v : Val) : Val :=
  match v with
  | Val.vtext s =>
    if firstChar k = some 'b' then Val.vbytes ((b64decode s).getD []) else v
  | _ => v

/-- An entry that `commit`'s strict assert admits: the value's runtime
type is exactly `TYPES[k[0]]`, and byte values are in range. -/
def wellTypedEntryB (k : String) (v : Val) : Bool :=
  match kindOfStr k with
  | none => false
  | some kd =>
      typeIs kd v &&
      (match v with
       | Val.vbytes bs => bs.all (fun x => decide (x < 256))
       | _ => true)

/-- Total form of the per-value conversion `commit` applies to a
well-typed value before `json.dumps`. -/
def encJ : Val → JVal
  | Val.vint n => JVal.jint n
  | Val.vfloat x => JVal.jfloat x
  | Val.vtext s => JVal.jstr s
  | Val.vbytes bs => JVal.jstr (b64encode bs)
  | Val.vnull => JVal.jnull

/-- A session state used for concrete evaluations: fresh node, empty
store. -/
def db0 : DB := initDB []

/-- A concrete buffered DDL statement. -/
def stmtC : Stmt :=
  { sql := "create table t (ikey int, primary key(ikey))", params := [] }

/-- A concrete statement carrying an int and a bytes parameter (the
spec's scenario 2 payload `0x00 0xff 0x10`). -/
def stmtB : Stmt :=
  { sql := "insert into blobs(ikey, bpayload) values(:ikey, :bpayload)"
    params := [("ikey", Val.vint 7), ("bpayload", Val.vbytes [0, 255, 16])] }

/-- A session at LSN 5 with an empty pending list and an empty store. -/
def dbEmptyCommit : DB :=
  { lsn := some 5
    txns := some []
    eng := { applied := [], pending := [], kv := 5, kvPending := none }
    store := [] }

/-- A session at LSN 5 with one buffered statement, racing a peer that
already published `logs/6`. -/
def dbRace : DB :=
  { lsn := some 5
    txns := some [stmtC]
    eng := { applied := [], pending := [stmtC], kv := 5, kvPending := none }
    store := [(6, [])] }

/-- A session whose pending list carries an `f`-kind parameter holding
an integer (accepted by `validate_types`). -/
def dbFcrash : DB :=
  { lsn := some 0
    txns := some [{ sql := "insert into t(fX) values(:fX)"
                    params := [("fX", Val.vint 5)] }]
    eng := { applied := [], pending := [], kv := 0, kvPending := none }
    store := [] }

/-!  ## Theorems  -/

theorem sextVal_sext {n : Nat} (h : n < 64) : sextVal (sext n) = some n := by
  have : ∀ m, m < 64 → sextVal (sext m) = some m := by decide
  exact this n h

theorem sext_ne_eq : ∀ n : Nat, sext n ≠ '=' := by
  intro n
  by_cases h : n < 64
  · have : ∀ m, m < 64 → sext m ≠ '=' := by decide
    exact this n h
  · unfold sext
    rw [List.getD_eq_default]
    · decide
    · have : b64Alphabet.length = 64 := by decide
      omega

theorem b64decode_encode :
    ∀ bs : List Nat, (∀ x ∈ bs, x < 256) → b64decodeAux (b64encodeAux bs) = some bs := by
  intro bs
  induction bs using b64encodeAux.induct with
  | case1 =>
      intro _
      simp [b64encodeAux, b64decodeAux]
  | case2 a =>
      intro h
      have ha : a < 256 := h a (by simp)
      rw [b64encodeAux, b64decodeAux]
      rw [sextVal_sext (by omega), sextVal_sext (by omega)]
      simp only [Option.some_bind, if_true, and_self]
      have e1 : a / 4 * 4 + a % 4 * 16 / 16 = a := by omega
      rw [e1]
  | case3 a b =>
      intro h
      have ha : a < 256 := h a (by simp)
      have hb : b < 256 := h b (by simp)
      rw [b64encodeAux, b64decodeAux]
      rw [sextVal_sext (by omega), sextVal_sext (by omega)]
      simp only [Option.some_bind]
      rw [if_neg (sext_ne_eq _), sextVal_sext (by omega)]
      simp only [Option.some_bind, if_true]
      have e1 : a / 4 * 4 + (a % 4 * 16 + b / 16) / 16 = a := by omega
      have e2 : (a % 4 * 16 + b / 16) % 16 * 16 + b % 16 * 4 / 4 = b := by omega
      rw [e1, e2]
  | case4 a b c rest ih =>
      intro h
      have ha : a < 256 := h a (by simp)
      have hb : b < 256 := h b (by simp)
      have hc : c < 256 := h c (by simp)
      have hrest : ∀ x ∈ rest, x < 256 := by
        intro x hx
        exact h x (by simp [hx])
      rw [b64encodeAux, b64decodeAux]
      rw [sextVal_sext (by omega), sextVal_sext (by omega)]
      simp only [Option.some_bind]
      rw [if_neg (sext_ne_eq _), sextVal_sext (by omega)]
      simp only [Option.some_bind]
      rw [if_neg (sext_ne_eq _), sextVal_sext (by omega)]
      simp only [Option.some_bind]
      rw [ih hrest]
      simp only [Option.some_bind]
      have e1 : a / 4 * 4 + (a % 4 * 16 + b / 16) / 16 = a := by omega
      have e2 : (a % 4 * 16 + b / 16) % 16 * 16 + (b % 16 * 4 + c / 64) / 4 = b := by omega
      have e3 : (b % 16 * 4 + c / 64) % 4 * 64 + c % 64 = c := by omega
      rw [e1, e2, e3]

theorem b64decode_b64encode (bs : List Nat) (h : ∀ x ∈ bs, x < 256) :
    b64decode (b64encode bs) = some bs := by
  unfold b64decode b64encode
  exact b64decode_encode bs h

/-- C7: calling `rename_column` with source and destination column names
whose first (kind) characters differ raises `DdlTypeMismatch` before any
local mutation: the returned state is exactly the input state, so no
statement is executed or buffered, `txns` and the local LSN are
unchanged, and no segment is published. -/
theorem rename_column_kind_mismatch (db : DB) (table src dst : String)
    (cs cd : Char) (hs : firstChar src = some cs) (hd : firstChar dst = some cd)
    (hne : cs ≠ cd) :
    Database.rename_column db table src dst = RunResult.err Err.ddlTypeMismatch db := by
  unfold Database.rename_column
  rw [hs, hd]
  exact if_pos hne

theorem rename_column_kind_mismatch_witness :
    Database.rename_column db0 "t" "iA" "tA" = RunResult.err Err.ddlTypeMismatch db0 :=
  rename_column_kind_mismatch db0 "t" "iA" "tA" 'i' 't' rfl rfl (by decide)

/-- C8: `update(table, set_map, where_map)` renders
`update {t} set {c}=:{c}_set, ... where {w}=:{w}_where and ...` and hands
the engine exactly the validated set values under keys `{c}_set`
followed by the validated where values under keys `{w}_where`; on the
spec's literal example the SQL is
`update t set iX=:iX_set where iK=:iK_where` with params
`{iX_set: 9, iK_where: 1}`. -/
theorem update_rendering (db : DB) (table : String)
    (setM whereM sd wd : List (String × Val))
    (hs : Database.validate_types setM = Except.ok sd)
    (hw : Database.validate_types whereM = Except.ok wd) :
    Database.update db table setM whereM =
      CoreDB.modify db
        ("update " ++ table ++ " set "
          ++ String.intercalate ", " (sd.map (fun p => p.1 ++ "=:" ++ p.1 ++ "_set"))
          ++ " where "
          ++ String.intercalate " and " (wd.map (fun p => p.1 ++ "=:" ++ p.1 ++ "_where")))
        (sd.map (fun p => (p.1 ++ "_set", p.2)) ++ wd.map (fun p => (p.1 ++ "_where", p.2))) := by
  unfold Database.update
  rw [hs, hw]

theorem update_rendering_witness :
    Database.update db0 "t" [("iX", Val.vint 9)] [("iK", Val.vint 1)] =
      CoreDB.modify db0 "update t set iX=:iX_set where iK=:iK_where"
        [("iX_set", Val.vint 9), ("iK_where", Val.vint 1)] :=
  update_rendering db0 "t" [("iX", Val.vint 9)] [("iK", Val.vint 1)]
    [("iX", Val.vint 9)] [("iK", Val.vint 1)] rfl rfl

/-- C6 is a code bug: an `f`-kind parameter holding an integer passes
`validate_types` (its `PYTYPES` maps `f` to `(int, float)`) but is never
widened to a float, so the strict `assert type(v) is TYPES[k[0]]` in
`commit` raises `AssertionError` instead of encoding the segment, and
the session is left with `lsn = txns = None`. -/
theorem f_int_accepted_then_commit_crashes :
    Database.validate_types [("fX", Val.vint 5)] = Except.ok [("fX", Val.vint 5)] ∧
    CoreDB.commit dbFcrash =
      RunResult.err Err.assertError { dbFcrash with lsn := none, txns := none } :=
  ⟨rfl, rfl⟩

/-- C4 counterexample: `commit` has no empty-`txns` guard.  At a concrete
state with LSN 5 and an empty pending list it writes an (empty) segment
object to the store at key 6 and advances both the `_kv` row and the
in-memory LSN to 6, contradicting "returns without side effects". -/
theorem commit_empty_txns_cx :
    CoreDB.commit dbEmptyCommit =
      RunResult.ok
        { lsn := some 6
          txns := some []
          eng := { applied := [], pending := [], kv := 6, kvPending := none }
          store := [(6, [])] } ∧
    lookupStore (stateOf (CoreDB.commit dbEmptyCommit)).store 6 = some [] ∧
    (stateOf (CoreDB.commit dbEmptyCommit)).eng.kv = 6 :=
  ⟨rfl, rfl, rfl⟩

/-- C4 amended: calling `commit()` with an empty `txns` is not a no-op:
whenever `logs/{lsn+1}` is free it publishes the empty segment `[]`
there, advances the `_kv` row and the in-memory LSN by 1, and leaves the
pending list empty. -/
theorem commit_empty_txns_publishes (db : DB) (n : Nat)
    (hl : db.lsn = some n) (ht : db.txns = some [])
    (hs : lookupStore db.store (n + 1) = none) :
    CoreDB.commit db =
      RunResult.ok
        { lsn := some (n + 1)
          txns := some []
          eng := engCommit (engSetKv db.eng (n + 1))
          store := (n + 1, []) :: db.store } := by
  unfold CoreDB.commit
  rw [ht, hl]
  simp only [encodeSeg, encodeAll, List.map_nil, s3put, hs, Option.isSome_none,
    Bool.false_eq_true, if_false]

theorem commit_empty_txns_publishes_witness :
    CoreDB.commit dbEmptyCommit =
      RunResult.ok
        { lsn := some 6
          txns := some []
          eng := engCommit (engSetKv dbEmptyCommit.eng 6)
          store := (6, []) :: dbEmptyCommit.store } :=
  commit_empty_txns_publishes dbEmptyCommit 5 rfl rfl rfl

theorem sync_noop_aux (db : DB)
    (h : lookupStore db.store (readKv db.eng + 1) = none) :
    CoreDB.sync db = RunResult.ok { db with lsn := some (readKv db.eng) } := by
  have hstep : CoreDB.syncStep { db with lsn := some (readKv db.eng) } =
      CoreDB.SyncStepRes.done { db with lsn := some (readKv db.eng) } := by
    unfold CoreDB.syncStep
    simp only [h]
  unfold CoreDB.sync CoreDB.syncLoop
  rw [hstep]

/-- C9: when the store holds no object at key `logs/{lsn+1}` (for the
`lsn` read from `_kv`), `sync` is a no-op: it returns with `self.lsn`
set to the `_kv` value and everything else — engine state, `_kv` row,
pending list, store — unchanged; and running `sync` again on the result
returns the result itself. -/
theorem sync_noop_idempotent (db : DB)
    (h : lookupStore db.store (readKv db.eng + 1) = none) :
    CoreDB.sync db = RunResult.ok { db with lsn := some (readKv db.eng) } ∧
    (∀ db', CoreDB.sync db = RunResult.ok db' → CoreDB.sync db' = RunResult.ok db') := by
  refine ⟨sync_noop_aux db h, ?_⟩
  intro db' hdb'
  rw [sync_noop_aux db h] at hdb'
  cases hdb'
  exact sync_noop_aux _ h

theorem sync_noop_idempotent_witness :
    CoreDB.sync db0 = RunResult.ok { db0 with lsn := some (readKv db0.eng) } :=
  (sync_noop_idempotent db0 rfl).1

/-- C3 counterexample: `commit` has no handler around the conditional
put.  At a concrete state racing a peer that already published `logs/6`,
the put failure propagates with the session left at `lsn = None`,
`txns = None`; the open engine transaction is NOT rolled back (the
executed statement is still pending), no `sync` runs (the `_kv` row
stays 5 although segment 6 sits unapplied in the store), and the session
cannot serve further operations: both `modify` and `commit` on the
resulting state raise. -/
theorem commit_race_cx :
    CoreDB.commit dbRace =
      RunResult.err Err.segmentExists { dbRace with lsn := none, txns := none } ∧
    ({ dbRace with lsn := none, txns := none } : DB).eng.pending = [stmtC] ∧
    ({ dbRace with lsn := none, txns := none } : DB).eng.kv = 5 ∧
    lookupStore ({ dbRace with lsn := none, txns := none } : DB).store 6 = some [] ∧
    (CoreDB.modify { dbRace with lsn := none, txns := none } "drop table t" []).isOk = false ∧
    (CoreDB.commit { dbRace with lsn := none, txns := none }).isOk = false :=
  ⟨rfl, rfl, rfl, rfl, rfl, rfl⟩

/-- C3 amended: when the conditional put of segment `lsn+1` fails
because the key already exists, `commit` does none of the claimed
recovery: the `SegmentExists` failure propagates to the caller, the
local engine transaction is left open (not rolled back), no `sync` is
run, and the session is left with `lsn = txns = None`, in which state
every further `modify` raises and every further `commit` raises. -/
theorem commit_race_propagates (db : DB) (n : Nat) (ts : List Stmt) (w wseg : Wire)
    (hl : db.lsn = some n) (ht : db.txns = some ts)
    (he : encodeSeg ts = Except.ok w)
    (hs : lookupStore db.store (n + 1) = some wseg) :
    CoreDB.commit db = RunResult.err Err.segmentExists { db with lsn := none, txns := none } ∧
    (∀ sql ps, (CoreDB.modify { db with lsn := none, txns := none } sql ps).isOk = false) ∧
    (CoreDB.commit { db with lsn := none, txns := none }).isOk = false := by
  refine ⟨?_, ?_, ?_⟩
  · unfold CoreDB.commit
    rw [ht, hl]
    simp only [he, s3put, hs, Option.isSome_some, if_true]
  · intro sql ps
    unfold CoreDB.modify engExec
    by_cases hq : sqlParseOk sql = true
    · rw [if_pos hq]
      rfl
    · rw [if_neg hq]
      rfl
  · rfl

theorem commit_race_propagates_witness :
    CoreDB.commit dbRace =
      RunResult.err Err.segmentExists { dbRace with lsn := none, txns := none } :=
  (commit_race_propagates dbRace 5 [stmtC] [(stmtC.sql, [])] [] rfl rfl rfl rfl).1

theorem str_data_append (a b : String) : (a ++ b).data = a.data ++ b.data := rfl

theorem sqlParseOk_eq_false_of_suffix (sql : String)
    (h : ("where ".data) <:+ sql.data) : sqlParseOk sql = false := by
  unfold sqlParseOk
  rw [decide_eq_true h]
  rfl

theorem sqlParseOk_eq_false_of_contains (sql : String)
    (h : ("set  where".data) <:+: sql.data) : sqlParseOk sql = false := by
  unfold sqlParseOk
  rw [decide_eq_true h]
  simp

/-- C10: `delete` and `update` need non-empty where/set maps.  With an
empty where map the rendered SQL ends in a bare `where ` and with an
empty set map it contains `set  where`; the engine's parser rejects
both, `cursor.execute` raises inside `modify` before the append to
`txns`, and the call returns the input state unchanged — so no such
statement is ever buffered, let alone committed to the log. -/
theorem empty_where_rejected :
    (∀ db table, Database.delete db table [] = RunResult.err Err.sqlSyntaxError db) ∧
    (∀ db table setM sd, Database.validate_types setM = Except.ok sd →
        Database.update db table setM [] = RunResult.err Err.sqlSyntaxError db) ∧
    (∀ db table whereM wd, Database.validate_types whereM = Except.ok wd →
        Database.update db table [] whereM = RunResult.err Err.sqlSyntaxError db) := by
  have hI : ∀ s : String, String.intercalate s ([] : List String) = "" := fun s => rfl
  have hE : ∀ s : String, (s ++ "").data = s.data := by
    intro s
    rw [str_data_append]
    simp
  refine ⟨?_, ?_, ?_⟩
  · intro db table
    unfold Database.delete
    simp only [Database.validate_types, List.map_nil]
    unfold CoreDB.modify engExec
    rw [sqlParseOk_eq_false_of_suffix]
    · rfl
    · refine ⟨"delete from ".data ++ table.data ++ [' '], ?_⟩
      rw [hI, hE, str_data_append, str_data_append]
      have h3 : " where ".data = [' '] ++ "where ".data := rfl
      rw [h3]
      simp [List.append_assoc]
  · intro db table setM sd hsv
    unfold Database.update
    rw [hsv]
    simp only [Database.validate_types, List.map_nil]
    unfold CoreDB.modify engExec
    rw [sqlParseOk_eq_false_of_suffix]
    · rfl
    · refine ⟨"update ".data ++ table.data ++ " set ".data
        ++ (String.intercalate ", " (sd.map (fun p => p.1 ++ "=:" ++ p.1 ++ "_set"))).data
        ++ [' '], ?_⟩
      rw [hI, hE, str_data_append, str_data_append, str_data_append, str_data_append]
      have h3 : " where ".data = [' '] ++ "where ".data := rfl
      rw [h3]
      simp [List.append_assoc]
  · intro db table whereM wd hwv
    unfold Database.update
    simp only [Database.validate_types, List.map_nil, hwv]
    unfold CoreDB.modify engExec
    rw [sqlParseOk_eq_false_of_contains]
    · rfl
    · refine ⟨"update ".data ++ table.data ++ [' '],
        [' '] ++ (String.intercalate " and "
          (wd.map (fun p => p.1 ++ "=:" ++ p.1 ++ "_where"))).data, ?_⟩
      rw [hI, str_data_append, str_data_append, str_data_append, str_data_append,
        str_data_append]
      have h4 : " set ".data = [' '] ++ "set ".data := rfl
      have h5 : ("" : String).data = [] := rfl
      rw [h4, h5]
      simp

theorem empty_where_rejected_witness :
    Database.update db0 "t" [("iX", Val.vint 9)] [] = RunResult.err Err.sqlSyntaxError db0 :=
  empty_where_rejected.2.1 db0 "t" [("iX", Val.vint 9)] [("iX", Val.vint 9)] rfl

theorem kindOfChar_cases (c : Char) (kd : Kind) (h : kindOfChar c = some kd) :
    (c = 'i' ∧ kd = Kind.i) ∨ (c = 'f' ∧ kd = Kind.f) ∨
    (c = 't' ∧ kd = Kind.t) ∨ (c = 'b' ∧ kd = Kind.b) := by
  unfold kindOfChar at h
  split at h <;> simp_all

theorem compatibleB_pyCompatible (k : String) (c : Char) (kd : Kind) (v : Val)
    (hfc : firstChar k = some c) (hkc : kindOfChar c = some kd) (hv : v ≠ Val.vnull) :
    compatibleB k v = pyCompatible kd v := by
  cases v with
  | vnull => exact absurd rfl hv
  | vint n => simp [compatibleB, kindOfStr, hfc, hkc]
  | vfloat x => simp [compatibleB, kindOfStr, hfc, hkc]
  | vtext t => simp [compatibleB, kindOfStr, hfc, hkc]
  | vbytes bs => simp [compatibleB, kindOfStr, hfc, hkc]

theorem validateEntry_ok_of_compatible (k : String) (c : Char) (kd : Kind) (v : Val)
    (hfc : firstChar k = some c) (hkc : kindOfChar c = some kd)
    (hb : bTextOkB k v = true) (hc : compatibleB k v = true) :
    validateEntry k v = Except.ok (validatedValue k v) := by
  unfold validateEntry
  simp only [hfc]
  by_cases hv : v = Val.vnull
  · subst hv
    simp [validatedValue]
  · rw [if_neg hv]
    simp only [hkc]
    have hpc : pyCompatible kd v = true := by
      rw [← compatibleB_pyCompatible k c kd v hfc hkc hv]
      exact hc
    rw [if_pos hpc]
    cases v with
    | vnull => exact absurd rfl hv
    | vint n => simp [validatedValue]
    | vfloat x => simp [validatedValue]
    | vbytes bs => simp [validatedValue]
    | vtext s =>
      rcases kindOfChar_cases c kd hkc with ⟨hce, hke⟩ | ⟨hce, hke⟩ | ⟨hce, hke⟩ | ⟨hce, hke⟩
      · subst hke; simp [pyCompatible] at hpc
      · subst hke; simp [pyCompatible] at hpc
      · subst hce
        simp [validatedValue, hfc]
      · subst hce
        subst hke
        have hks : kindOfStr k = some Kind.b := by
          unfold kindOfStr
          rw [hfc]
          rfl
        have hb' : (b64decode s).isSome = true := by
          unfold bTextOkB at hb
          rw [hks] at hb
          simpa using hb
        rcases hd : b64decode s with _ | bs
        · rw [hd] at hb'; simp at hb'
        · simp [validatedValue, hfc, hd]

theorem validateEntry_err_of_incompatible (k : String) (c : Char) (kd : Kind) (v : Val)
    (hfc : firstChar k = some c) (hkc : kindOfChar c = some kd)
    (hc : compatibleB k v = false) :
    validateEntry k v = Except.error (Err.typeMismatch k) := by
  have hv : v ≠ Val.vnull := by
    intro h
    subst h
    simp [compatibleB] at hc
  have hpc : pyCompatible kd v = false := by
    rw [← compatibleB_pyCompatible k c kd v hfc hkc hv]
    exact hc
  unfold validateEntry
  simp only [hfc]
  rw [if_neg hv]
  simp only [hkc]
  rw [if_neg (by simp [hpc])]

theorem validateEntry_ok_props (k : String) (v v' : Val)
    (h : validateEntry k v = Except.ok v') :
    (v = Val.vnull → v' = Val.vnull) ∧
    (kindOfStr k = some Kind.b → v' ≠ Val.vnull → ∃ bs, v' = Val.vbytes bs) := by
  rcases hfc : firstChar k with _ | c
  · unfold validateEntry at h
    rw [hfc] at h
    cases h
  · cases v with
    | vnull =>
      unfold validateEntry at h
      simp only [hfc, if_pos] at h
      cases h
      exact ⟨fun _ => rfl, fun _ hne => absurd rfl hne⟩
    | vint n =>
      unfold validateEntry at h
      simp only [hfc] at h
      rw [if_neg (by simp)] at h
      rcases hkc : kindOfChar c with _ | kd
      · simp only [hkc] at h; cases h
      · simp only [hkc] at h
        by_cases hpc : pyCompatible kd (Val.vint n) = true
        · rw [if_pos hpc] at h
          cases h
          refine ⟨fun hq => hq, fun hkb _ => ?_⟩
          exfalso
          have hkd : kd = Kind.b := by
            unfold kindOfStr at hkb
            rw [hfc] at hkb
            simp only [Option.some_bind, hkc, Option.some.injEq] at hkb
            exact hkb
          subst hkd
          simp [pyCompatible] at hpc
        · rw [if_neg hpc] at h
          cases h
    | vfloat x =>
      unfold validateEntry at h
      simp only [hfc] at h
      rw [if_neg (by simp)] at h
      rcases hkc : kindOfChar c with _ | kd
      · simp only [hkc] at h; cases h
      · simp only [hkc] at h
        by_cases hpc : pyCompatible kd (Val.vfloat x) = true
        · rw [if_pos hpc] at h
          cases h
          refine ⟨fun hq => hq, fun hkb _ => ?_⟩
          exfalso
          have hkd : kd = Kind.b := by
            unfold kindOfStr at hkb
            rw [hfc] at hkb
            simp only [Option.some_bind, hkc, Option.some.injEq] at hkb
            exact hkb
          subst hkd
          simp [pyCompatible] at hpc
        · rw [if_neg hpc] at h
          cases h
    | vbytes bs =>
      unfold validateEntry at h
      simp only [hfc] at h
      rw [if_neg (by simp)] at h
      rcases hkc : kindOfChar c with _ | kd
      · simp only [hkc] at h; cases h
      · simp only [hkc] at h
        by_cases hpc : pyCompatible kd (Val.vbytes bs) = true
        · rw [if_pos hpc] at h
          cases h
          exact ⟨fun hq => hq, fun _ _ => ⟨bs, rfl⟩⟩
        · rw [if_neg hpc] at h
          cases h
    | vtext s =>
      unfold validateEntry at h
      simp only [hfc] at h
      rw [if_neg (by simp)] at h
      rcases hkc : kindOfChar c with _ | kd
      · simp only [hkc] at h; cases h
      · simp only [hkc] at h
        by_cases hpc : pyCompatible kd (Val.vtext s) = true
        · rw [if_pos hpc] at h
          by_cases hcb : c = 'b'
          · rw [if_pos hcb] at h
            rcases hd : b64decode s with _ | bs
            · rw [hd] at h; cases h
            · rw [hd] at h
              cases h
              exact ⟨(fun hq => nomatch hq), fun _ _ => ⟨bs, rfl⟩⟩
          · rw [if_neg hcb] at h
            cases h
            refine ⟨fun hq => hq, fun hkb _ => ?_⟩
            exfalso
            apply hcb
            have hkd : kd = Kind.b := by
              unfold kindOfStr at hkb
              rw [hfc] at hkb
              simp only [Option.some_bind, hkc, Option.some.injEq] at hkb
              exact hkb
            subst hkd
            rcases kindOfChar_cases c _ hkc with ⟨h1, h2⟩ | ⟨h1, h2⟩ | ⟨h1, h2⟩ | ⟨h1, h2⟩ <;>
              simp_all
        · rw [if_neg hpc] at h
          cases h

theorem validate_types_ok_of_all :
    ∀ values : List (String × Val),
      (∀ p ∈ values, validKeyB p.1 = true) →
      (∀ p ∈ values, bTextOkB p.1 p.2 = true) →
      (∀ p ∈ values, compatibleB p.1 p.2 = true) →
      Database.validate_types values =
        Except.ok (values.map (fun p => (p.1, validatedValue p.1 p.2))) := by
  intro values
  induction values with
  | nil => intro _ _ _; rfl
  | cons p rest ih =>
    intro hk hb hc
    obtain ⟨k, v⟩ := p
    have hk0 := hk (k, v) (by simp)
    unfold validKeyB kindOfStr at hk0
    rcases hfc : firstChar k with _ | c
    · rw [hfc] at hk0; simp at hk0
    · rw [hfc] at hk0
      simp only [Option.some_bind] at hk0
      rcases hkc : kindOfChar c with _ | kd
      · rw [hkc] at hk0; simp at hk0
      · have hrec := ih (fun q hq => hk q (by simp [hq])) (fun q hq => hb q (by simp [hq]))
          (fun q hq => hc q (by simp [hq]))
        simp only [Database.validate_types,
          validateEntry_ok_of_compatible k c kd v hfc hkc (hb (k, v) (by simp))
            (hc (k, v) (by simp)),
          hrec, List.map_cons]

theorem validate_types_err_of_exists :
    ∀ values : List (String × Val),
      (∀ p ∈ values, validKeyB p.1 = true) →
      (∀ p ∈ values, bTextOkB p.1 p.2 = true) →
      (∃ p ∈ values, compatibleB p.1 p.2 = false) →
      ∃ k, (∃ v, (k, v) ∈ values ∧ compatibleB k v = false) ∧
        Database.validate_types values = Except.error (Err.typeMismatch k) := by
  intro values
  induction values with
  | nil =>
    intro _ _ hex
    rcases hex with ⟨p, hp, _⟩
    simp at hp
  | cons p rest ih =>
    intro hk hb hex
    obtain ⟨k, v⟩ := p
    have hk0 := hk (k, v) (by simp)
    unfold validKeyB kindOfStr at hk0
    rcases hfc : firstChar k with _ | c
    · rw [hfc] at hk0; simp at hk0
    · rw [hfc] at hk0
      simp only [Option.some_bind] at hk0
      rcases hkc : kindOfChar c with _ | kd
      · rw [hkc] at hk0; simp at hk0
      · by_cases hch : compatibleB k v = true
        · have hex' : ∃ q ∈ rest, compatibleB q.1 q.2 = false := by
            rcases hex with ⟨q, hq, hqc⟩
            rcases List.mem_cons.mp hq with hq0 | hq'
            · subst hq0; rw [hch] at hqc; cases hqc
            · exact ⟨q, hq', hqc⟩
          obtain ⟨k', hkv', heq⟩ := ih (fun q hq => hk q (by simp [hq]))
            (fun q hq => hb q (by simp [hq])) hex'
          refine ⟨k', ?_, ?_⟩
          · rcases hkv' with ⟨v', hv'mem, hv'c⟩
            exact ⟨v', by simp [hv'mem], hv'c⟩
          · simp only [Database.validate_types,
              validateEntry_ok_of_compatible k c kd v hfc hkc (hb (k, v) (by simp)) hch, heq]
        · have hcf : compatibleB k v = false := by
            revert hch
            cases compatibleB k v <;> simp
          refine ⟨k, ⟨v, by simp, hcf⟩, ?_⟩
          simp only [Database.validate_types,
            validateEntry_err_of_incompatible k c kd v hfc hkc hcf]

theorem validate_types_forall2 :
    ∀ (values out : List (String × Val)),
      Database.validate_types values = Except.ok out →
      List.Forall₂
        (fun p q => q.1 = p.1 ∧ (p.2 = Val.vnull → q.2 = Val.vnull) ∧
          (kindOfStr p.1 = some Kind.b → q.2 ≠ Val.vnull → ∃ bs, q.2 = Val.vbytes bs))
        values out := by
  intro values
  induction values with
  | nil =>
    intro out h
    cases h
    exact List.Forall₂.nil
  | cons p rest ih =>
    intro out h
    obtain ⟨k, v⟩ := p
    unfold Database.validate_types at h
    rcases hve : validateEntry k v with e | v'
    · rw [hve] at h
      cases h
    · rw [hve] at h
      simp only [] at h
      rcases hrest : Database.validate_types rest with e | ps
      · rw [hrest] at h
        cases h
      · rw [hrest] at h
        simp only [] at h
        cases h
        refine List.Forall₂.cons ⟨rfl, ?_, ?_⟩ (ih ps hrest)
        · intro hn
          exact (validateEntry_ok_props k v v' hve).1 hn
        · intro hbk hne
          exact (validateEntry_ok_props k v v' hve).2 hbk hne

/-- C5: on maps whose keys carry a valid kind prefix and whose `b`-kind
text values are well-formed base64, `validate_types` (a) accepts a map
in which every non-null value's runtime kind is compatible with its
name's kind (`i`: int; `f`: int or float; `t`: text; `b`: bytes or
base64 text) and returns the same keys with `b` text decoded to bytes
and everything else, nulls included, passed through; (b) rejects a map
containing an incompatible entry by raising `TypeMismatch` naming an
incompatible key; (c) any accepted output has the same keys in order,
preserves nulls positionally, and holds raw bytes in every non-null
`b`-kind position. -/
theorem validate_types_spec (values : List (String × Val))
    (hk : ∀ p ∈ values, validKeyB p.1 = true)
    (hb : ∀ p ∈ values, bTextOkB p.1 p.2 = true) :
    ((∀ p ∈ values, compatibleB p.1 p.2 = true) →
        Database.validate_types values =
          Except.ok (values.map (fun p => (p.1, validatedValue p.1 p.2)))) ∧
    ((∃ p ∈ values, compatibleB p.1 p.2 = false) →
        ∃ k, (∃ v, (k, v) ∈ values ∧ compatibleB k v = false) ∧
          Database.validate_types values = Except.error (Err.typeMismatch k)) ∧
    (∀ out, Database.validate_types values = Except.ok out →
        List.Forall₂
          (fun p q => q.1 = p.1 ∧ (p.2 = Val.vnull → q.2 = Val.vnull) ∧
            (kindOfStr p.1 = some Kind.b → q.2 ≠ Val.vnull → ∃ bs, q.2 = Val.vbytes bs))
          values out) :=
  ⟨fun hc => validate_types_ok_of_all values hk hb hc,
   fun hex => validate_types_err_of_exists values hk hb hex,
   fun out h => validate_types_forall2 values out h⟩

theorem wellTypedEntryB_elim (k : String) (v : Val) (h : wellTypedEntryB k v = true) :
    ∃ c kd, firstChar k = some c ∧ kindOfChar c = some kd ∧ typeIs kd v = true ∧
      (∀ bs, v = Val.vbytes bs → ∀ x ∈ bs, x < 256) := by
  unfold wellTypedEntryB kindOfStr at h
  rcases hfc : firstChar k with _ | c
  · rw [hfc] at h; simp at h
  · rw [hfc] at h
    simp only [Option.some_bind] at h
    rcases hkc : kindOfChar c with _ | kd
    · simp only [hkc] at h
      cases h
    · simp only [hkc, Bool.and_eq_true] at h
      refine ⟨c, kd, rfl, hkc, h.1, ?_⟩
      intro bs hveq x hx
      subst hveq
      have h2 := h.2
      simp only [List.all_eq_true, decide_eq_true_eq] at h2
      exact h2 x hx

theorem encodeVal_ok (k : String) (v : Val) (h : wellTypedEntryB k v = true) :
    encodeVal k v = Except.ok (encJ v) := by
  obtain ⟨c, kd, hfc, hkc, hti, _⟩ := wellTypedEntryB_elim k v h
  unfold encodeVal
  simp only [hfc, hkc]
  rw [if_pos hti]
  cases v with
  | vnull => cases kd <;> simp [typeIs] at hti
  | vint n => rfl
  | vfloat x => rfl
  | vtext s => rfl
  | vbytes bs => rfl

theorem decodeVal_encJ (k : String) (v : Val) (h : wellTypedEntryB k v = true) :
    decodeVal k (encJ v) = Except.ok v := by
  obtain ⟨c, kd, hfc, hkc, hti, hbd⟩ := wellTypedEntryB_elim k v h
  unfold decodeVal
  simp only [hfc]
  cases v with
  | vnull => cases kd <;> simp [typeIs] at hti
  | vint n =>
    have hkd : kd = Kind.i := by
      cases kd with
      | i => rfl
      | f => simp [typeIs] at hti
      | t => simp [typeIs] at hti
      | b => simp [typeIs] at hti
    subst hkd
    have hci : c = 'i' := by
      rcases kindOfChar_cases c _ hkc with ⟨h1, h2⟩ | ⟨h1, h2⟩ | ⟨h1, h2⟩ | ⟨h1, h2⟩ <;>
        simp_all
    subst hci
    rfl
  | vfloat x =>
    have hkd : kd = Kind.f := by
      cases kd with
      | f => rfl
      | i => simp [typeIs] at hti
      | t => simp [typeIs] at hti
      | b => simp [typeIs] at hti
    subst hkd
    have hcf : c = 'f' := by
      rcases kindOfChar_cases c _ hkc with ⟨h1, h2⟩ | ⟨h1, h2⟩ | ⟨h1, h2⟩ | ⟨h1, h2⟩ <;>
        simp_all
    subst hcf
    rfl
  | vtext s =>
    have hkd : kd = Kind.t := by
      cases kd with
      | t => rfl
      | i => simp [typeIs] at hti
      | f => simp [typeIs] at hti
      | b => simp [typeIs] at hti
    subst hkd
    have hct : c = 't' := by
      rcases kindOfChar_cases c _ hkc with ⟨h1, h2⟩ | ⟨h1, h2⟩ | ⟨h1, h2⟩ | ⟨h1, h2⟩ <;>
        simp_all
    subst hct
    rfl
  | vbytes bs =>
    have hkd : kd = Kind.b := by
      cases kd with
      | b => rfl
      | i => simp [typeIs] at hti
      | f => simp [typeIs] at hti
      | t => simp [typeIs] at hti
    subst hkd
    have hcb : c = 'b' := by
      rcases kindOfChar_cases c _ hkc with ⟨h1, h2⟩ | ⟨h1, h2⟩ | ⟨h1, h2⟩ | ⟨h1, h2⟩ <;>
        simp_all
    subst hcb
    rw [if_pos rfl]
    simp only [encJ]
    rw [b64decode_b64encode bs (hbd bs rfl)]

theorem encodeParams_ok :
    ∀ ps : List (String × Val), (∀ p ∈ ps, wellTypedEntryB p.1 p.2 = true) →
      encodeParams ps = Except.ok (ps.map (fun p => (p.1, encJ p.2))) := by
  intro ps
  induction ps with
  | nil => intro _; rfl
  | cons p rest ih =>
    intro h
    obtain ⟨k, v⟩ := p
    simp only [encodeParams, encodeVal_ok k v (h (k, v) (by simp)),
      ih (fun q hq => h q (by simp [hq])), List.map_cons]

theorem decodeParams_map :
    ∀ ps : List (String × Val), (∀ p ∈ ps, wellTypedEntryB p.1 p.2 = true) →
      decodeParams (ps.map (fun p => (p.1, encJ p.2))) = Except.ok ps := by
  intro ps
  induction ps with
  | nil => intro _; rfl
  | cons p rest ih =>
    intro h
    obtain ⟨k, v⟩ := p
    simp only [List.map_cons, decodeParams, decodeVal_encJ k v (h (k, v) (by simp)),
      ih (fun q hq => h q (by simp [hq]))]

theorem map_orderedInsert (f : Val → JVal) (p : String × Val) :
    ∀ l : List (String × Val),
      (List.orderedInsert (fun a b : String × Val => a.1 ≤ b.1) p l).map
          (fun q => (q.1, f q.2)) =
        List.orderedInsert (fun a b : String × JVal => a.1 ≤ b.1) (p.1, f p.2)
          (l.map (fun q => (q.1, f q.2))) := by
  intro l
  induction l with
  | nil => rfl
  | cons q rest ih =>
    simp only [List.map_cons, List.orderedInsert]
    by_cases hle : p.1 ≤ q.1
    · rw [if_pos hle, if_pos hle]
      simp only [List.map_cons]
    · rw [if_neg hle, if_neg hle]
      simp only [List.map_cons, ih]

theorem map_sortKeys (f : Val → JVal) :
    ∀ l : List (String × Val),
      (sortKeys l).map (fun q => (q.1, f q.2)) = sortKeys (l.map (fun q => (q.1, f q.2))) := by
  intro l
  induction l with
  | nil => rfl
  | cons p rest ih =>
    simp only [sortKeys, List.insertionSort, List.map_cons] at ih ⊢
    rw [map_orderedInsert f p, ih]

theorem sortKeys_mem {α : Type} (l : List (String × α)) :
    ∀ p ∈ sortKeys l, p ∈ l := by
  intro p hp
  exact (List.perm_insertionSort (fun a b : String × α => a.1 ≤ b.1) l).mem_iff.mp hp

theorem encodeAll_ok :
    ∀ S : List Stmt, (∀ st ∈ S, ∀ p ∈ st.params, wellTypedEntryB p.1 p.2 = true) →
      encodeAll S =
        Except.ok (S.map (fun st => (st.sql, st.params.map (fun p => (p.1, encJ p.2))))) := by
  intro S
  induction S with
  | nil => intro _; rfl
  | cons st rest ih =>
    intro h
    simp only [encodeAll, encodeParams_ok st.params (h st (by simp)),
      ih (fun q hq => h q (by simp [hq])), List.map_cons]

theorem decodeSeg_sorted :
    ∀ S : List Stmt, (∀ st ∈ S, ∀ p ∈ st.params, wellTypedEntryB p.1 p.2 = true) →
      decodeSeg
          (S.map (fun st => (st.sql, sortKeys (st.params.map (fun p => (p.1, encJ p.2)))))) =
        Except.ok (S.map (fun st => { sql := st.sql, params := sortKeys st.params })) := by
  intro S
  induction S with
  | nil => intro _; rfl
  | cons st rest ih =>
    intro h
    have hsorted : decodeParams (sortKeys (st.params.map (fun p => (p.1, encJ p.2)))) =
        Except.ok (sortKeys st.params) := by
      rw [← map_sortKeys]
      exact decodeParams_map (sortKeys st.params)
        (fun q hq => h st (by simp) q (sortKeys_mem st.params q hq))
    simp only [List.map_cons, decodeSeg, hsorted, ih (fun q hq => h q (by simp [hq]))]

/-- C2 counterexample: the codec does not handle nulls.  A segment whose
params hold a null value has no encoded wire form at all — the strict
assert in `commit`'s encode loop raises `AssertionError` (`type(None)`
is never `TYPES[k[0]]`) — and symmetrically the decode loop of `sync`
raises on a JSON `null`.  So `decode(encode(S)) == S` fails for every
segment containing a null. -/
theorem segment_null_encode_fails :
    encodeSeg [{ sql := "insert into t(iX) values(:iX)", params := [("iX", Val.vnull)] }] =
      Except.error Err.assertError ∧
    decodeSeg [("insert into t(iX) values(:iX)", [("iX", JVal.jnull)])] =
      Except.error Err.assertError :=
  ⟨rfl, rfl⟩

/-- C2 amended: for every segment whose parameter values are non-null
and match their name's kind exactly (`i`: int, `f`: float, `t`: text,
`b`: in-range bytes), decoding the encoded wire form succeeds and
returns the segment value-wise: sql texts unchanged, `b` values
byte-exact, every value preserved; each params map comes back with its
keys sorted, a permutation of the original (only key order may
differ). -/
theorem segment_roundtrip_welltyped (S : List Stmt)
    (h : ∀ st ∈ S, ∀ p ∈ st.params, wellTypedEntryB p.1 p.2 = true) :
    (∃ w, encodeSeg S = Except.ok w ∧
        decodeSeg w =
          Except.ok (S.map (fun st => { sql := st.sql, params := sortKeys st.params }))) ∧
    (∀ st ∈ S, List.Perm (sortKeys st.params) st.params) := by
  refine ⟨⟨S.map (fun st => (st.sql, sortKeys (st.params.map (fun p => (p.1, encJ p.2))))),
    ?_, decodeSeg_sorted S h⟩, ?_⟩
  · unfold encodeSeg
    rw [encodeAll_ok S h]
    simp [List.map_map, Function.comp]
  · intro st _
    exact List.perm_insertionSort _ _

theorem segment_roundtrip_welltyped_witness :
    (∃ w, encodeSeg [stmtB] = Except.ok w ∧
        decodeSeg w =
          Except.ok ([stmtB].map (fun st => { sql := st.sql, params := sortKeys st.params }))) ∧
    (∀ st ∈ [stmtB], List.Perm (sortKeys st.params) st.params) :=
  segment_roundtrip_welltyped [stmtB] (by decide)

theorem validate_types_spec_witness :
    Database.validate_types
        [("iX", Val.vint 7), ("tN", Val.vtext "a"),
         ("bP", Val.vtext "AP8Q"), ("fQ", Val.vnull)] =
      Except.ok
        ([("iX", Val.vint 7), ("tN", Val.vtext "a"),
          ("bP", Val.vtext "AP8Q"), ("fQ", Val.vnull)].map
          (fun p => (p.1, validatedValue p.1 p.2))) :=
  (validate_types_spec _ (by decide) (by decide)).1 (by decide)

theorem execAll_eng (l : List Stmt) :
    ∀ e : Engine, (CoreDB.execAll e l).1.kv = e.kv ∧
      (CoreDB.execAll e l).1.kvPending = e.kvPending := by
  induction l with
  | nil => intro e; exact ⟨rfl, rfl⟩
  | cons st rest ih =>
    intro e
    unfold CoreDB.execAll engExec
    by_cases hq : sqlParseOk st.sql = true
    · rw [if_pos hq]
      exact ih _
    · rw [if_neg hq]
      exact ⟨rfl, rfl⟩

theorem commit_ok_state (db db' : DB) (hInv : Inv db)
    (h : CoreDB.commit db = RunResult.ok db') :
    db'.eng.kv = db.eng.kv + 1 ∧ db'.lsn = some (db.eng.kv + 1) ∧
      db'.eng.kvPending = none := by
  obtain ⟨hp, hl⟩ := hInv
  unfold CoreDB.commit at h
  rcases htx : db.txns with _ | ts
  · simp only [htx] at h
    cases h
  · simp only [htx] at h
    rcases henc : encodeSeg ts with e | w
    · simp only [henc] at h
      cases h
    · simp only [henc] at h
      rcases hlsn : db.lsn with _ | m
      · simp only [hlsn] at h
        cases h
      · simp only [hlsn] at h
        rcases hput : s3put db.store (m + 1) w with e | store'
        · simp only [hput] at h
          cases h
        · simp only [hput] at h
          cases h
          have hm : m = db.eng.kv := by
            rcases hl with h0 | h0
            · rw [hlsn] at h0
              cases h0
            · rw [hlsn] at h0
              exact Option.some.inj h0
          subst hm
          exact ⟨rfl, rfl, rfl⟩

theorem commit_err_state (db : DB) (e : Err) (db' : DB)
    (h : CoreDB.commit db = RunResult.err e db') :
    db' = { db with lsn := none, txns := none } := by
  unfold CoreDB.commit at h
  rcases htx : db.txns with _ | ts
  · simp only [htx] at h
    cases h
    rfl
  · simp only [htx] at h
    rcases henc : encodeSeg ts with e' | w
    · simp only [henc] at h
      cases h
      rfl
    · simp only [henc] at h
      rcases hlsn : db.lsn with _ | m
      · simp only [hlsn] at h
        cases h
        rfl
      · simp only [hlsn] at h
        rcases hput : s3put db.store (m + 1) w with e' | store'
        · simp only [hput] at h
          cases h
          rfl
        · simp only [hput] at h
          cases h

theorem applyOp_inv_kv (op : Op) (db : DB) (h : Inv db) :
    Inv (applyOp op db) ∧
    ((applyOp op db).eng.kv = db.eng.kv ∨ (applyOp op db).eng.kv = db.eng.kv + 1) := by
  obtain ⟨hp, hl⟩ := h
  cases op with
  | modifyOp sql ps =>
    simp only [applyOp, CoreDB.modify, engExec]
    rcases hq : sqlParseOk sql with _ | _
    · simp only [hq, Bool.false_eq_true, if_false, stateOf]
      exact ⟨⟨hp, hl⟩, Or.inl (by simp)⟩
    · simp only [hq, if_true]
      rcases htx : db.txns with _ | ts
      · simp only [htx, stateOf]
        exact ⟨⟨hp, hl⟩, Or.inl (by simp)⟩
      · simp only [htx, stateOf]
        exact ⟨⟨hp, hl⟩, Or.inl (by simp)⟩
  | commitOp =>
    simp only [applyOp]
    rcases hc : CoreDB.commit db with db' | ⟨e, db'⟩
    · have hks := commit_ok_state db db' ⟨hp, hl⟩ hc
      simp only [stateOf]
      exact ⟨⟨hks.2.2, Or.inr (hks.2.1.trans (by rw [hks.1]))⟩, Or.inr hks.1⟩
    · have hes := commit_err_state db e db' hc
      subst hes
      simp only [stateOf]
      exact ⟨⟨hp, Or.inl rfl⟩, Or.inl (by simp)⟩
  | syncReadOp =>
    simp only [applyOp]
    refine ⟨⟨hp, Or.inr ?_⟩, Or.inl (by simp)⟩
    show some (readKv db.eng) = some db.eng.kv
    unfold readKv
    rw [hp]
    rfl
  | syncIterOp =>
    simp only [applyOp, CoreDB.syncStep]
    rcases hlsn : db.lsn with _ | n
    · simp only [hlsn]
      exact ⟨⟨hp, hl⟩, Or.inl (by simp)⟩
    · simp only [hlsn]
      have hm : n = db.eng.kv := by
        rcases hl with h0 | h0
        · rw [hlsn] at h0
          cases h0
        · rw [hlsn] at h0
          exact Option.some.inj h0
      rcases hlook : lookupStore db.store (n + 1) with _ | w
      · simp only [hlook]
        exact ⟨⟨hp, hl⟩, Or.inl (by simp)⟩
      · simp only [hlook]
        rcases hdec : decodeSeg w with e | txns
        · simp only [hdec]
          exact ⟨⟨hp, hl⟩, Or.inl (by simp)⟩
        · simp only [hdec]
          rcases hex : CoreDB.execAll db.eng txns with ⟨e2, _ | er⟩
          · simp only [hex]
            refine ⟨⟨rfl, Or.inr rfl⟩, Or.inr ?_⟩
            rw [← hm]
            rfl
          · simp only [hex]
            have he1 : e2.kv = db.eng.kv := by
              have h1 := (execAll_eng txns db.eng).1
              rw [hex] at h1
              exact h1
            have he2 : e2.kvPending = db.eng.kvPending := by
              have h2 := (execAll_eng txns db.eng).2
              rw [hex] at h2
              exact h2
            refine ⟨⟨he2.trans hp, Or.inr ?_⟩, Or.inl he1⟩
            rw [hm, he1]
  | restartOp =>
    exact ⟨⟨rfl, Or.inl rfl⟩, Or.inl rfl⟩

theorem scanl_head_eq (f : DB → Op → DB) (b : DB) (l : List Op) :
    (List.scanl f b l).head? = some b := by
  cases l <;> simp [List.scanl]

theorem chain_kv_scanl (ops : List Op) :
    ∀ db : DB, Inv db →
      List.Chain' (fun a b => b = a ∨ b = a + 1)
        ((List.scanl (fun d op => applyOp op d) db ops).map (fun d => d.eng.kv)) := by
  induction ops with
  | nil =>
    intro db _
    simp [List.scanl]
  | cons op rest ih =>
    intro db hdb
    rw [List.scanl_cons, List.singleton_append, List.map_cons]
    refine List.chain'_cons'.mpr ⟨?_, ih (applyOp op db) (applyOp_inv_kv op db hdb).1⟩
    intro y hy
    simp only [List.head?_map, scanl_head_eq, Option.map_some', Option.mem_def,
      Option.some.injEq] at hy
    subst hy
    exact (applyOp_inv_kv op db hdb).2

theorem chain_mem_le :
    ∀ (l : List Nat) (a : Nat),
      List.Chain' (fun x y => y = x ∨ y = x + 1) (a :: l) →
      ∀ n ∈ a :: l, ∀ m, a ≤ m → m ≤ n → m ∈ a :: l := by
  intro l
  induction l with
  | nil =>
    intro a _ n hn m ham hmn
    simp only [List.mem_singleton] at hn
    have hma : m = a := by omega
    simp [hma]
  | cons b l ih =>
    intro a hch n hn m ham hmn
    have hR : b = a ∨ b = a + 1 := (List.chain'_cons.mp hch).1
    have hch' := (List.chain'_cons.mp hch).2
    by_cases hma : m = a
    · simp [hma]
    · have hbm : b ≤ m := by
        rcases hR with h0 | h0 <;> omega
      have hn' : n ∈ b :: l := by
        rcases List.mem_cons.mp hn with h0 | h0
        · exfalso
          omega
        · exact h0
      exact List.mem_cons_of_mem a (ih b hch' n hn' m hbm hmn)

/-- C1: every successful `commit` run from a reachable state advances
the local `_kv` row `key='lsn'` by exactly 1 (and sets the in-memory
LSN to the same value); and along any sequence of events — buffered
statements, commits, sync reads, sync loop iterations, restarts — from
a fresh node, the sequence of values taken by the `_kv` row starts at 0,
moves only in steps of 0 or +1 (so it never decreases), and contains
every value below any value it reaches: the local LSNs are 0, 1, 2, …
with no gaps and no decreases. -/
theorem commit_lsn_monotonic_gapfree :
    (∀ db db', Inv db → CoreDB.commit db = RunResult.ok db' →
        db'.eng.kv = db.eng.kv + 1 ∧ db'.lsn = some (db.eng.kv + 1)) ∧
    (∀ store0 ops,
        (kvSeq store0 ops).head? = some 0 ∧
        List.Chain' (fun a b => b = a ∨ b = a + 1) (kvSeq store0 ops) ∧
        (∀ n ∈ kvSeq store0 ops, ∀ m, m ≤ n → m ∈ kvSeq store0 ops)) := by
  constructor
  · intro db db' hInv h
    exact ⟨(commit_ok_state db db' hInv h).1, (commit_ok_state db db' hInv h).2.1⟩
  · intro store0 ops
    have hInv0 : Inv (initDB store0) := ⟨rfl, Or.inl rfl⟩
    have hhead : (kvSeq store0 ops).head? = some 0 := by
      unfold kvSeq
      rw [List.head?_map, scanl_head_eq]
      rfl
    have hchain : List.Chain' (fun a b => b = a ∨ b = a + 1) (kvSeq store0 ops) :=
      chain_kv_scanl ops (initDB store0) hInv0
    refine ⟨hhead, hchain, ?_⟩
    intro n hn m hmn
    rcases hseq : kvSeq store0 ops with _ | ⟨a, tl⟩
    · rw [hseq] at hn
      cases hn
    · have ha : a = 0 := by
        rw [hseq] at hhead
        exact Option.some.inj hhead
      subst ha
      rw [hseq] at hchain hn
      exact chain_mem_le tl 0 hchain n hn m (Nat.zero_le m) hmn

theorem commit_lsn_monotonic_gapfree_witness :
    (stateOf (CoreDB.commit dbEmptyCommit)).eng.kv = dbEmptyCommit.eng.kv + 1 :=
  (commit_lsn_monotonic_gapfree.1 dbEmptyCommit (stateOf (CoreDB.commit dbEmptyCommit))
    ⟨rfl, Or.inr rfl⟩ rfl).1

end SQLiteDB
